import Mathlib

/-!
Verification development for the download-and-merge pipeline of the
Oxford behavioural-finance-task repository (`download_datasets.py`).

The pipeline fetches a personality CSV table and an assets JSON table,
merges them with `pd.merge(df_personality, df_assets, on='_id', how='outer')`,
and writes three CSV files under `datasets/`.

Tables (pandas DataFrames) are modelled as an ordered list of column names
together with a list of rows; a cell is `Option String`, `none` standing for
a missing value (NaN/null).
-/

/-- A cell of a table: `none` models pandas NaN / JSON null / missing key. -/
abbrev Cell := Option String

/-- A table: ordered column names and rows. A well-formed table has every
row of the same length as `cols` (see `Table.WF`). -/
structure Table where
  cols : List String
  rows : List (List Cell)
  deriving DecidableEq, Repr

/-- Well-formedness: each row has exactly one cell per column. -/
def Table.WF (t : Table) : Prop := ∀ r ∈ t.rows, r.length = t.cols.length

instance (t : Table) : Decidable t.WF := by
  unfold Table.WF; infer_instance

/-- The join key used by the pipeline: `pd.merge(..., on='_id', ...)`. -/
def keyCol : String := "_id"

/-- The key cell of a row, given the index of the key column.
Out-of-range access yields `none`. -/
def rowKey (i : Nat) (r : List Cell) : Cell := (r.get? i).join

/-- Number of rows among `rows` whose key cell (at column index `i`) is `k`. -/
def keyCount (i : Nat) (rows : List (List Cell)) (k : Cell) : Nat :=
  List.countP (fun r => rowKey i r == k) rows

/-- The rows of `bRows` whose key (at index `ib`) equals `k`: the rows a
left-hand row with key `k` pairs with in the outer join. -/
def matchesOf (ib : Nat) (bRows : List (List Cell)) (k : Cell) : List (List Cell) :=
  bRows.filter (fun rb => rowKey ib rb == k)

/-- A run of `n` null cells. -/
def nullRow (n : Nat) : List Cell := List.replicate n none

/-- Column names of `pd.merge(A, B, on='_id', how='outer')`: the left
table's columns in order (the key column kept in place), then the right
table's non-key columns in order; a non-key name occurring on both sides
receives pandas' default suffix `_x` on the left copy and `_y` on the right. -/
def mergedCols (aCols bCols : List String) : List String :=
  aCols.map (fun c => if c ≠ keyCol ∧ c ∈ bCols then c ++ "_x" else c)
    ++ (bCols.filter (fun c => decide (c ≠ keyCol))).map
        (fun c => if c ∈ aCols then c ++ "_y" else c)

/-- Left part of the outer join: each left row paired with every matching
right row (the matching row's key cell removed, since the key is kept once,
at its left position); a left row with no match is padded with `bw` nulls
(`bw` = number of right non-key columns). -/
def mergeRowsLeft (ia ib : Nat) (bRows : List (List Cell)) (bw : Nat) :
    List (List Cell) → List (List Cell)
  | [] => []
  | ra :: rest =>
      (if matchesOf ib bRows (rowKey ia ra) = [] then
        [ra ++ nullRow bw]
      else
        (matchesOf ib bRows (rowKey ia ra)).map (fun rb => ra ++ rb.eraseIdx ib))
      ++ mergeRowsLeft ia ib bRows bw rest

/-- Right-only part of the outer join: each right row whose key matches no
left row becomes one output row whose left-side cells are null except the
key cell, which carries the right row's key. -/
def mergeRowsRight (ia ib : Nat) (aRows : List (List Cell)) (aw : Nat)
    (bRows : List (List Cell)) : List (List Cell) :=
  (bRows.filter (fun rb => keyCount ia aRows (rowKey ib rb) == 0)).map
    (fun rb => ((nullRow aw).set ia (rowKey ib rb)) ++ rb.eraseIdx ib)

/-- `pd.merge(A, B, on='_id', how='outer')` on two tables that both contain
the key column (pandas raises otherwise, see `mergeOuter`). -/
def mergeTables (A B : Table) : Table :=
  { cols := mergedCols A.cols B.cols
  , rows :=
      mergeRowsLeft (List.indexOf keyCol A.cols) (List.indexOf keyCol B.cols)
          B.rows (B.cols.length - 1) A.rows
        ++ mergeRowsRight (List.indexOf keyCol A.cols) (List.indexOf keyCol B.cols)
            A.rows A.cols.length B.rows }

/-- Error taxonomy of the pipeline (spec section 7). -/
inductive PipeError where
  | fetchError
  | parseError
  | mergeError
  deriving DecidableEq, Repr

/-- The merge step of the pipeline: `pd.merge` raises when the `on` column
is absent from either operand; otherwise it returns the outer join. -/
def mergeOuter (A B : Table) : Except PipeError Table :=
  if keyCol ∈ A.cols ∧ keyCol ∈ B.cols then
    Except.ok (mergeTables A B)
  else
    Except.error PipeError.mergeError

/-! ### Derived quantities used by the claims -/

/-- Index of the key column `_id` in a table's column list. -/
def idKeyIdx (t : Table) : Nat := List.indexOf keyCol t.cols

/-- The `_id` cell of a row of table `t`. -/
def rowKeyIn (t : Table) (r : List Cell) : Cell := rowKey (idKeyIdx t) r

/-- Number of rows of `t` whose `_id` cell equals `k`. -/
def idCount (t : Table) (k : Cell) : Nat := keyCount (idKeyIdx t) t.rows k

/-- Number of rows of `t` whose `_id` matches no row of `other`. -/
def unmatchedCount (t other : Table) : Nat :=
  List.countP (fun r => idCount other (rowKeyIn t r) == 0) t.rows

/-- Total number of (row of A, row of B) pairs that agree on `_id`. -/
def pairCount (A B : Table) : Nat :=
  (A.rows.map (fun ra => idCount B (rowKeyIn A ra))).sum

/-! ### Fixture tables (the spec's example scenario, section 8) -/

/-- Fixture: the spec's example personality table. -/
def sampleA : Table := ⟨["_id", "trait"], [[some "1", some "X"]]⟩

/-- Fixture: the spec's example assets table. -/
def sampleB : Table :=
  ⟨["_id", "asset_value", "asset_currency"],
   [[some "1", some "100", some "GBP"], [some "2", some "50", some "USD"]]⟩

/-! ### CSV serialization (`DataFrame.to_csv(path, index=False)`) and
parsing (`pd.read_csv`) -/

/-- True when a CSV field must be quoted (it contains a separator, a quote
or a line break): csv QUOTE_MINIMAL, the default used by `to_csv`. -/
def needsQuoting (s : List Char) : Bool :=
  s.any (fun c => c == ',' || c == '\"' || c == '\n' || c == '\r')

/-- Double every quote character (CSV quote escaping). -/
def doubleQuotes : List Char → List Char
  | [] => []
  | c :: cs => if c == '\"' then c :: c :: doubleQuotes cs else c :: doubleQuotes cs

/-- Collapse doubled quote characters (CSV quote unescaping). -/
def undoubleQuotes : List Char → List Char
  | [] => []
  | [c] => [c]
  | c :: c' :: cs =>
      if c == '\"' && c' == '\"' then c :: undoubleQuotes cs
      else c :: undoubleQuotes (c' :: cs)

/-- Serialize one CSV field, wrapping it in quotes only when needed. -/
def escapeField (s : List Char) : List Char :=
  if needsQuoting s then '\"' :: (doubleQuotes s ++ ['\"']) else s

/-- Serialized form of a cell: a missing value is written as the empty
field (`to_csv` default `na_rep=''`). -/
def cellField : Cell → List Char
  | none => []
  | some s => escapeField s.data

/-- Fields of one CSV record, joined with commas. -/
def joinFields : List (List Char) → List Char
  | [] => []
  | f :: fs => f ++ (if fs.isEmpty then [] else ',' :: joinFields fs)

/-- Lines of a file, each terminated with a newline (`to_csv` ends every
record, including the last, with the line terminator). -/
def joinLines : List (List Char) → List Char
  | [] => []
  | l :: ls => l ++ '\n' :: joinLines ls

/-- The CSV header line of a column list. -/
def headerLineOf (cols : List String) : List Char :=
  joinFields (cols.map (fun c => escapeField c.data))

/-- The CSV line of one data row. -/
def rowLineOf (r : List Cell) : List Char :=
  joinFields (r.map cellField)

/-- `df.to_csv(path, index=False)`: a header row with the column names in
table order, then one comma-separated line per row; no index column. -/
def writeTable (t : Table) : String :=
  ⟨joinLines (headerLineOf t.cols :: t.rows.map rowLineOf)⟩

/-- Prepend a character to the first chunk of a split (used by the
splitters below). -/
def consHead (c : Char) : List (List Char) → List (List Char)
  | [] => [[c]]
  | f :: rest => (c :: f) :: rest

/-- Quote-aware splitting at a separator character: a separator inside a
quoted field does not split (the Boolean tracks being inside quotes). -/
def splitQuoted (sep : Char) : List Char → Bool → List (List Char)
  | [], _ => [[]]
  | c :: cs, inq =>
      if c == '\"' then consHead c (splitQuoted sep cs (!inq))
      else if c == sep && !inq then [] :: splitQuoted sep cs inq
      else consHead c (splitQuoted sep cs inq)

/-- Split a CSV text into records at newlines that are not inside a quoted
field. -/
def splitRecordsAux (cs : List Char) (inq : Bool) : List (List Char) :=
  splitQuoted '\n' cs inq

/-- Split one CSV record into fields at commas that are not inside a
quoted field; quote characters are kept for `unquoteField`. -/
def splitFieldsAux (cs : List Char) (inq : Bool) : List (List Char) :=
  splitQuoted ',' cs inq

/-- Strip the outer quotes of a quoted field and unescape its quotes. -/
def unquoteField (f : List Char) : List Char :=
  match f with
  | [] => []
  | c :: rest => if c == '\"' then undoubleQuotes rest.dropLast else c :: rest

/-- Read one data field back as a cell: an empty field or the literal
`NaN` is a missing value (the core of `read_csv`'s default NA handling). -/
def decodeCell (f : List Char) : Cell :=
  let v := unquoteField f
  if v = [] ∨ v = "NaN".data then none else some ⟨v⟩

/-- Model of `pd.read_csv` on raw CSV text: split into records, drop blank
lines (`skip_blank_lines=True`, the default, also drops the blank left by
the trailing newline), take the first record as the header (names read
verbatim), and decode every remaining record's fields as cells. Fails when
no record is left (pandas: `EmptyDataError`). -/
def readCsv (text : String) : Except PipeError Table :=
  match (splitRecordsAux text.data false).filter (fun l => decide (l ≠ [])) with
  | [] => Except.error PipeError.parseError
  | header :: rest =>
      Except.ok
        { cols := (splitFieldsAux header false).map (fun f => ⟨unquoteField f⟩)
        , rows := rest.map (fun line => (splitFieldsAux line false).map decodeCell) }

/-! ### The `download_datasets` pipeline -/

/-- Body of the assets endpoint's HTTP response, as seen by `resp.json()`:
either not parseable as JSON (`json()` raises) or a JSON array of flat
objects, each object a list of key/value pairs (a null value is a `none`
cell). -/
inductive JsonBody where
  | invalid
  | records (recs : List (List (String × Cell)))
  deriving DecidableEq, Repr

/-- Outcome of the `requests.get` call to the assets endpoint. -/
inductive HttpOutcome where
  | timeout
  | response (status : Nat) (body : JsonBody)
  deriving DecidableEq, Repr

/-- The environment a run executes against: whether the `datasets`
directory already exists, the personality CSV response (`none`: the GET
issued by `pd.read_csv(url)` fails), and the assets endpoint's response. -/
structure World where
  datasetsDirExists : Bool
  csvResponse : Option String
  assetsResponse : HttpOutcome
  deriving DecidableEq, Repr

/-- Observable effects of a run, in program order. `mergeOp` marks the
execution of the `pd.merge` call. -/
inductive Effect where
  | mkdir (path : String)
  | csvGet (url : String)
  | httpGet (url : String) (headers : List (String × String)) (timeout : Nat)
  | writeFile (path : String) (content : String)
  | mergeOp
  deriving DecidableEq, Repr

/-- The request headers built by `download_datasets` for the Supabase call. -/
def mkHeaders (key : String) : List (String × String) :=
  [("apikey", key), ("Authorization", "Bearer " ++ key),
   ("Accept", "application/json")]

/-- `resp.raise_for_status()` raises exactly for 4xx and 5xx statuses. -/
def raiseForStatus (status : Nat) : Bool :=
  decide (400 ≤ status ∧ status < 600)

/-- Union of the objects' keys in order of first appearance: the column
order of `pd.DataFrame(list_of_dicts)`. -/
def unionKeys (recs : List (List (String × Cell))) : List String :=
  recs.foldl
    (fun acc r => r.foldl
      (fun acc kv => if kv.1 ∈ acc then acc else acc ++ [kv.1]) acc) []

/-- `pd.DataFrame(list_of_dicts)`: one row per object, columns the union
of the observed keys; a key missing from an object (or mapped to null)
yields a missing cell. -/
def dataFrameOfRecords (recs : List (List (String × Cell))) : Table :=
  { cols := unionKeys recs
  , rows := recs.map (fun r => (unionKeys recs).map (fun c => (r.lookup c).join)) }

/-- Result of a run: the effect trace in program order, the error that
terminated the run (if any), and the tables produced along the way. -/
structure RunResult where
  effects : List Effect
  error : Option PipeError
  personalityTable : Option Table
  assetsTable : Option Table
  mergedTable : Option Table
  deriving Repr

/-- Shallow embedding of `download_datasets(personality_url, assets_url,
supa_api_key)`: create `datasets` if absent; fetch and parse the
personality CSV and write it; issue the authenticated GET with a 30-second
timeout; `raise_for_status`; parse the JSON body into a DataFrame and
write it; outer-merge the two tables on `_id` and write the result. A
raised error aborts the remainder of the function (Python exception
propagation). -/
def download_datasets (personality_url assets_url supa_api_key : String)
    (w : World) : RunResult :=
  let fx0 : List Effect :=
    if w.datasetsDirExists then [] else [Effect.mkdir "datasets"]
  let fx1 := fx0 ++ [Effect.csvGet personality_url]
  match w.csvResponse with
  | none => ⟨fx1, some PipeError.fetchError, none, none, none⟩
  | some text =>
    match readCsv text with
    | Except.error e => ⟨fx1, some e, none, none, none⟩
    | Except.ok dfP =>
      let fx3 := fx1
        ++ [Effect.writeFile "datasets/personality.csv" (writeTable dfP),
            Effect.httpGet assets_url (mkHeaders supa_api_key) 30]
      match w.assetsResponse with
      | HttpOutcome.timeout => ⟨fx3, some PipeError.fetchError, some dfP, none, none⟩
      | HttpOutcome.response status body =>
        if raiseForStatus status then
          ⟨fx3, some PipeError.fetchError, some dfP, none, none⟩
        else
          match body with
          | JsonBody.invalid => ⟨fx3, some PipeError.parseError, some dfP, none, none⟩
          | JsonBody.records recs =>
            let dfA := dataFrameOfRecords recs
            let fx5 := fx3
              ++ [Effect.writeFile "datasets/assets.csv" (writeTable dfA),
                  Effect.mergeOp]
            match mergeOuter dfP dfA with
            | Except.error e => ⟨fx5, some e, some dfP, some dfA, none⟩
            | Except.ok dfM =>
              ⟨fx5 ++ [Effect.writeFile "datasets/merged_dataset.csv" (writeTable dfM)],
               none, some dfP, some dfA, some dfM⟩

/-! ### The module-level script (lines 42-59 of `download_datasets.py`) -/

/-- The GitHub CSV URL hardcoded at module level. -/
def GITHUB_CSV_URL : String :=
  "https://raw.githubusercontent.com/karwester/behavioural-finance-task/"
    ++ "main/personality.csv"

/-- The Supabase project URL hardcoded at module level. -/
def SUPABASE_URL : String := "https://pvgaaikztozwlfhyrqlo.supabase.co"

/-- The assets endpoint derived from `SUPABASE_URL`. -/
def ASSETS_ENDPOINT : String := SUPABASE_URL ++ "/rest/v1/assets?select=*"

/-- The fallback anon bearer token embedded in the source (lines 50-55). -/
def HARDCODED_API_KEY : String :=
  "eyJhbGciOiJIUzI1NiIsInR5cCI6IkpXVCJ9.eyJpc3MiOiJzdXBhYmFzZSIsInJlZiI6"
    ++ "InB2Z2FhaWt6dG96d2xmaHlycWxvIiwicm9sZSI6ImFub24iLCJpYXQiOjE3NDc4NDE2"
    ++ "MjUsImV4cCI6MjA2MzQxNzYyNX0.iAqMXnJ_sJuBMtA6FPNCRcYnKw95YkJvY3OhCIZ77vI"

/-- `os.getenv("SUPABASE_API_KEY", <hardcoded default>)`: the environment's
key when set, the embedded default otherwise. -/
def API_KEY (envKey : Option String) : String :=
  envKey.getD HARDCODED_API_KEY

/-- The module-level invocation of `download_datasets` (lines 57-59). -/
def scriptRun (envKey : Option String) (w : World) : RunResult :=
  download_datasets GITHUB_CSV_URL ASSETS_ENDPOINT (API_KEY envKey) w

/-! ### Trace observations used by the claims -/

/-- True when the trace contains a write to `path`. -/
def writesTo (path : String) (fx : List Effect) : Bool :=
  fx.any (fun e => match e with
    | Effect.writeFile p _ => p == path
    | _ => false)

/-- The paths written by a trace, in order. -/
def writePaths (fx : List Effect) : List String :=
  fx.filterMap (fun e => match e with
    | Effect.writeFile p _ => some p
    | _ => none)

/-- The directories created by a trace, in order. -/
def mkdirPaths (fx : List Effect) : List String :=
  fx.filterMap (fun e => match e with
    | Effect.mkdir p => some p
    | _ => none)

/-- Selects the authenticated HTTP GET effects of a trace. -/
def isHttpGet : Effect → Bool
  | Effect.httpGet _ _ _ => true
  | _ => false

/-- The ordering discipline claimed by the spec's state machine: every file
write occurs after the merge step (the Boolean records having passed a
`mergeOp`). -/
def writesOnlyAfterMergeAux : List Effect → Bool → Bool
  | [], _ => true
  | Effect.mergeOp :: rest, _ => writesOnlyAfterMergeAux rest true
  | Effect.writeFile _ _ :: rest, seen => seen && writesOnlyAfterMergeAux rest seen
  | _ :: rest, seen => writesOnlyAfterMergeAux rest seen

/-- True when every file write of the trace occurs after a merge step. -/
def writesOnlyAfterMerge (fx : List Effect) : Bool :=
  writesOnlyAfterMergeAux fx false

/-! ### Fixture worlds -/

/-- Fixture world: both fetches succeed with a 200 response. -/
def worldOk : World :=
  ⟨true, some "_id,trait\n1,X\n",
   HttpOutcome.response 200
     (JsonBody.records [[("_id", some "1"), ("asset_value", some "100")]])⟩

/-- Fixture world: the assets endpoint answers 304 (non-2xx) with a JSON
array body. -/
def world304 : World :=
  ⟨true, some "_id,trait\n1,X\n",
   HttpOutcome.response 304 (JsonBody.records [[("_id", some "1")]])⟩

/-- Fixture world: the assets request times out. -/
def worldTimeout : World :=
  ⟨true, some "_id,trait\n1,X\n", HttpOutcome.timeout⟩

/-- Fixture world: both fetches succeed but the personality table has no
`_id` column. -/
def worldNoKey : World :=
  ⟨true, some "pid,trait\n1,X\n",
   HttpOutcome.response 200 (JsonBody.records [[("_id", some "1")]])⟩

/-- Prepend a chunk of characters to the first chunk of a split
(generalizes `consHead`). -/
def consAll (c : List Char) : List (List Char) → List (List Char)
  | [] => [c]
  | f :: rest => (c ++ f) :: rest

/-- Fixture: a table whose column names and cells exercise CSV quoting
(commas, quotes and a line break) and an empty and a missing cell. -/
def sampleQuoted : Table :=
  ⟨["_id", "no,tes"],
   [[some "a,b", some "say \"hi\"\nbye"], [none, some ""]]⟩

example :
    mergeOuter ⟨["_id", "trait"], [[some "1", some "X"]]⟩
      ⟨["_id", "asset_value"], [[some "1", some "100"], [some "2", some "50"]]⟩
    = Except.ok ⟨["_id", "trait", "asset_value"],
        [[some "1", some "X", some "100"],
         [some "2", none, some "50"]]⟩ := by rfl

/-! ### Basic lemmas about the outer-join embedding -/

lemma matchesOf_length (ib : Nat) (bRows : List (List Cell)) (k : Cell) :
    (matchesOf ib bRows k).length = keyCount ib bRows k := by
  simp [matchesOf, keyCount, List.countP_eq_length_filter]

lemma matchesOf_eq_nil_iff {ib : Nat} {bRows : List (List Cell)} {k : Cell} :
    matchesOf ib bRows k = [] ↔ keyCount ib bRows k = 0 := by
  rw [← matchesOf_length, List.length_eq_zero]

lemma mem_matchesOf {ib : Nat} {bRows : List (List Cell)} {k : Cell} {rb : List Cell} :
    rb ∈ matchesOf ib bRows k ↔ rb ∈ bRows ∧ rowKey ib rb = k := by
  simp [matchesOf, List.mem_filter]

lemma rowKey_append_left {i : Nat} {r s : List Cell} (h : i < r.length) :
    rowKey i (r ++ s) = rowKey i r := by
  unfold rowKey
  rw [List.get?_append h]

lemma rowKey_rightRow {ia aw : Nat} (h : ia < aw) (k : Cell) (tail : List Cell) :
    rowKey ia (((nullRow aw).set ia k) ++ tail) = k := by
  unfold rowKey
  rw [List.get?_append (by simp [nullRow, h])]
  rw [List.get?_set_eq]
  simp [nullRow, List.get?_eq_getElem?, List.getElem?_replicate, h]

lemma mem_mergeRowsLeft {ia ib : Nat} {bRows : List (List Cell)} {bw : Nat}
    {aRows : List (List Cell)} {r : List Cell} :
    r ∈ mergeRowsLeft ia ib bRows bw aRows ↔
      ∃ ra ∈ aRows,
        (matchesOf ib bRows (rowKey ia ra) = [] ∧ r = ra ++ nullRow bw) ∨
        (∃ rb ∈ matchesOf ib bRows (rowKey ia ra), r = ra ++ rb.eraseIdx ib) := by
  induction aRows with
  | nil => simp [mergeRowsLeft]
  | cons ra rest ih =>
      by_cases h : matchesOf ib bRows (rowKey ia ra) = []
      · simp only [mergeRowsLeft, h, if_pos rfl, List.mem_append, ih, List.mem_cons]
        constructor
        · rintro (hr | ⟨ra', hra', hcase⟩)
          · exact ⟨ra, Or.inl rfl, Or.inl ⟨h, by simpa using hr⟩⟩
          · exact ⟨ra', Or.inr hra', hcase⟩
        · rintro ⟨ra', hra' | hra', hcase⟩
          · subst hra'
            rcases hcase with ⟨-, hr⟩ | ⟨rb, hrb, -⟩
            · exact Or.inl (by simp [hr])
            · rw [h] at hrb; simp at hrb
          · exact Or.inr ⟨ra', hra', hcase⟩
      · simp only [mergeRowsLeft, if_neg h, List.mem_append, List.mem_map, ih, List.mem_cons]
        constructor
        · rintro (⟨rb, hrb, hr⟩ | ⟨ra', hra', hcase⟩)
          · exact ⟨ra, Or.inl rfl, Or.inr ⟨rb, hrb, hr.symm⟩⟩
          · exact ⟨ra', Or.inr hra', hcase⟩
        · rintro ⟨ra', hra' | hra', hcase⟩
          · subst hra'
            rcases hcase with ⟨hnil, -⟩ | ⟨rb, hrb, hr⟩
            · exact absurd hnil h
            · exact Or.inl ⟨rb, hrb, hr.symm⟩
          · exact Or.inr ⟨ra', hra', hcase⟩

lemma length_mergeRowsLeft (ia ib : Nat) (bRows : List (List Cell)) (bw : Nat)
    (aRows : List (List Cell)) :
    (mergeRowsLeft ia ib bRows bw aRows).length
      = (aRows.map (fun ra => max 1 (keyCount ib bRows (rowKey ia ra)))).sum := by
  induction aRows with
  | nil => rfl
  | cons ra rest ih =>
      by_cases h : matchesOf ib bRows (rowKey ia ra) = []
      · have h0 : keyCount ib bRows (rowKey ia ra) = 0 := matchesOf_eq_nil_iff.mp h
        simp [mergeRowsLeft, h, ih, h0]
        omega
      · have h1 : 1 ≤ keyCount ib bRows (rowKey ia ra) := by
          rcases Nat.eq_zero_or_pos (keyCount ib bRows (rowKey ia ra)) with h0 | h0
          · exact absurd (matchesOf_eq_nil_iff.mpr h0) h
          · exact h0
        simp [mergeRowsLeft, h, ih, matchesOf_length, Nat.max_eq_right h1]

lemma countP_key_of_const {k k' : Cell} {i : Nat} (l : List (List Cell))
    (h : ∀ r ∈ l, rowKey i r = k') :
    List.countP (fun r => rowKey i r == k) l = if k' = k then l.length else 0 := by
  induction l with
  | nil => simp
  | cons r rest ih =>
      have hr : rowKey i r = k' := h r (List.mem_cons_self r rest)
      have hrest := ih (fun r hmem => h r (List.mem_cons_of_mem _ hmem))
      by_cases hk : k' = k
      · simp [List.countP_cons, hrest, hr, hk]
      · simp [List.countP_cons, hrest, hr, hk]

lemma keyCount_mergeRowsLeft {ia ib : Nat} {bRows : List (List Cell)} {bw : Nat}
    {aRows : List (List Cell)} (hwf : ∀ ra ∈ aRows, ia < ra.length) (k : Cell) :
    keyCount ia (mergeRowsLeft ia ib bRows bw aRows) k
      = (aRows.map (fun ra => if rowKey ia ra = k
            then max 1 (keyCount ib bRows (rowKey ia ra)) else 0)).sum := by
  induction aRows with
  | nil => rfl
  | cons ra rest ih =>
      have hia : ia < ra.length := hwf ra (List.mem_cons_self ra rest)
      have hrest := ih (fun r hmem => hwf r (List.mem_cons_of_mem _ hmem))
      have hbranch : ∀ r ∈ (if matchesOf ib bRows (rowKey ia ra) = [] then
            [ra ++ nullRow bw]
          else
            (matchesOf ib bRows (rowKey ia ra)).map (fun rb => ra ++ rb.eraseIdx ib)),
          rowKey ia r = rowKey ia ra := by
        intro r hr
        by_cases h : matchesOf ib bRows (rowKey ia ra) = []
        · rw [if_pos h] at hr
          simp at hr
          rw [hr]
          exact rowKey_append_left hia
        · rw [if_neg h] at hr
          rcases List.mem_map.mp hr with ⟨rb, -, hrb⟩
          rw [← hrb]
          exact rowKey_append_left hia
      have hlen : (if matchesOf ib bRows (rowKey ia ra) = [] then
            [ra ++ nullRow bw]
          else
            (matchesOf ib bRows (rowKey ia ra)).map (fun rb => ra ++ rb.eraseIdx ib)).length
          = max 1 (keyCount ib bRows (rowKey ia ra)) := by
        by_cases h : matchesOf ib bRows (rowKey ia ra) = []
        · have h0 : keyCount ib bRows (rowKey ia ra) = 0 := matchesOf_eq_nil_iff.mp h
          simp [h, h0]
        · have h1 : 1 ≤ keyCount ib bRows (rowKey ia ra) := by
            rcases Nat.eq_zero_or_pos (keyCount ib bRows (rowKey ia ra)) with h0 | h0
            · exact absurd (matchesOf_eq_nil_iff.mpr h0) h
            · exact h0
          simp [h, matchesOf_length, Nat.max_eq_right h1]
      show List.countP _ (_ ++ _) = _
      rw [List.countP_append]
      have hcnt := @countP_key_of_const k (rowKey ia ra) ia _ hbranch
      rw [hcnt, hlen]
      simp only [List.map_cons, List.sum_cons, keyCount] at hrest ⊢
      rw [hrest]

lemma length_mergeRowsRight (ia ib : Nat) (aRows : List (List Cell)) (aw : Nat)
    (bRows : List (List Cell)) :
    (mergeRowsRight ia ib aRows aw bRows).length
      = List.countP (fun rb => keyCount ia aRows (rowKey ib rb) == 0) bRows := by
  simp [mergeRowsRight, List.countP_eq_length_filter]

lemma mem_mergeRowsRight {ia ib : Nat} {aRows : List (List Cell)} {aw : Nat}
    {bRows : List (List Cell)} {r : List Cell} :
    r ∈ mergeRowsRight ia ib aRows aw bRows ↔
      ∃ rb ∈ bRows, keyCount ia aRows (rowKey ib rb) = 0 ∧
        r = ((nullRow aw).set ia (rowKey ib rb)) ++ rb.eraseIdx ib := by
  simp only [mergeRowsRight, List.mem_map, List.mem_filter]
  constructor
  · rintro ⟨rb, ⟨hrb, hz⟩, hr⟩
    exact ⟨rb, hrb, by simpa using hz, hr.symm⟩
  · rintro ⟨rb, hrb, hz, hr⟩
    exact ⟨rb, ⟨hrb, by simpa using hz⟩, hr.symm⟩

lemma keyCount_mergeRowsRight_of_matched {ia ib : Nat} {aRows : List (List Cell)}
    {aw : Nat} {bRows : List (List Cell)} {k : Cell} (hia : ia < aw)
    (hkA : 0 < keyCount ia aRows k) :
    keyCount ia (mergeRowsRight ia ib aRows aw bRows) k = 0 := by
  rw [keyCount, List.countP_eq_zero]
  intro r hr
  rcases mem_mergeRowsRight.mp hr with ⟨rb, -, hz, hreq⟩
  subst hreq
  rw [rowKey_rightRow hia]
  intro hbeq
  rw [beq_iff_eq] at hbeq
  rw [hbeq] at hz
  omega

lemma sum_map_ite_key {k : Cell} {i : Nat} (c : Nat) (l : List (List Cell)) :
    (l.map (fun r => if rowKey i r = k then c else 0)).sum
      = c * List.countP (fun r => rowKey i r == k) l := by
  induction l with
  | nil => simp
  | cons r rest ih =>
      by_cases hk : rowKey i r = k
      · simp [List.countP_cons, hk, ih, Nat.mul_add]
        omega
      · simp [List.countP_cons, hk, ih]

lemma sum_map_max_one {α : Type} (g : α → Nat) (l : List α) :
    (l.map (fun a => max 1 (g a))).sum
      = (l.map g).sum + List.countP (fun a => g a == 0) l := by
  induction l with
  | nil => simp
  | cons a rest ih =>
      by_cases h : g a = 0
      · simp [List.countP_cons, h, ih]
        omega
      · have h1 : 1 ≤ g a := Nat.one_le_iff_ne_zero.mpr h
        simp [List.countP_cons, h, ih, Nat.max_eq_right h1]
        omega

lemma mergeOuter_eq_ok {A B : Table} (hA : keyCol ∈ A.cols) (hB : keyCol ∈ B.cols) :
    mergeOuter A B = Except.ok (mergeTables A B) := by
  simp [mergeOuter, hA, hB]

lemma mergeOuter_ok_elim {A B M : Table} (hM : mergeOuter A B = Except.ok M) :
    M = mergeTables A B := by
  by_cases h : keyCol ∈ A.cols ∧ keyCol ∈ B.cols
  · rw [mergeOuter, if_pos h] at hM
    injection hM with h'
    exact h'.symm
  · rw [mergeOuter, if_neg h] at hM
    simp at hM

lemma idKeyIdx_lt_cols {A : Table} (hA : keyCol ∈ A.cols) :
    idKeyIdx A < A.cols.length :=
  List.indexOf_lt_length.mpr hA

lemma idKeyIdx_lt_row {A : Table} (hA : keyCol ∈ A.cols) (wfA : A.WF)
    {ra : List Cell} (hra : ra ∈ A.rows) : idKeyIdx A < ra.length := by
  rw [wfA ra hra]
  exact idKeyIdx_lt_cols hA

/-- C1: for every pair of input tables A and B each containing `_id`, the
outer join keeps every `_id` of either side (no silent drops): every row of
A and every row of B has a merged row carrying the same `_id`; a merged row
whose `_id` occurs in no row of B is null in all of B's non-key columns
(the cells at positions `|A.cols| ≤ j < |A.cols| + |B.cols| - 1`), and a
merged row whose `_id` occurs in no row of A is null in all of A's non-key
columns (positions `j < |A.cols|`, `j ≠ idKeyIdx A`). -/
theorem mergeOuter_no_silent_drops_and_null_fill (A B M : Table)
    (hA : keyCol ∈ A.cols) (hB : keyCol ∈ B.cols) (wfA : A.WF) (wfB : B.WF)
    (hM : mergeOuter A B = Except.ok M) :
    (∀ ra ∈ A.rows, ∃ r ∈ M.rows, rowKeyIn A r = rowKeyIn A ra)
    ∧ (∀ rb ∈ B.rows, ∃ r ∈ M.rows, rowKeyIn A r = rowKeyIn B rb)
    ∧ (∀ r ∈ M.rows, idCount B (rowKeyIn A r) = 0 →
        ∀ j, A.cols.length ≤ j → j < A.cols.length + (B.cols.length - 1) →
          r.get? j = some none)
    ∧ (∀ r ∈ M.rows, idCount A (rowKeyIn A r) = 0 →
        ∀ j, j < A.cols.length → j ≠ idKeyIdx A → r.get? j = some none) := by
  have hMeq := mergeOuter_ok_elim hM
  subst hMeq
  have hia : idKeyIdx A < A.cols.length := idKeyIdx_lt_cols hA
  simp only [idCount, rowKeyIn, idKeyIdx, mergeTables, List.mem_append] at *
  refine ⟨?_, ?_, ?_, ?_⟩
  · -- every `_id` of A survives
    intro ra hra
    have hlen : List.indexOf keyCol A.cols < ra.length :=
      idKeyIdx_lt_row hA wfA hra
    by_cases hm : matchesOf (List.indexOf keyCol B.cols) B.rows
        (rowKey (List.indexOf keyCol A.cols) ra) = []
    · refine ⟨ra ++ nullRow (B.cols.length - 1), Or.inl ?_, ?_⟩
      · exact mem_mergeRowsLeft.mpr ⟨ra, hra, Or.inl ⟨hm, rfl⟩⟩
      · exact rowKey_append_left hlen
    · rcases List.exists_mem_of_ne_nil _ hm with ⟨rb, hrb⟩
      refine ⟨ra ++ rb.eraseIdx (List.indexOf keyCol B.cols), Or.inl ?_, ?_⟩
      · exact mem_mergeRowsLeft.mpr ⟨ra, hra, Or.inr ⟨rb, hrb, rfl⟩⟩
      · exact rowKey_append_left hlen
  · -- every `_id` of B survives
    intro rb hrb
    by_cases hz : keyCount (List.indexOf keyCol A.cols) A.rows
        (rowKey (List.indexOf keyCol B.cols) rb) = 0
    · refine ⟨((nullRow A.cols.length).set (List.indexOf keyCol A.cols)
          (rowKey (List.indexOf keyCol B.cols) rb))
          ++ rb.eraseIdx (List.indexOf keyCol B.cols), Or.inr ?_, ?_⟩
      · exact mem_mergeRowsRight.mpr ⟨rb, hrb, hz, rfl⟩
      · exact rowKey_rightRow hia _ _
    · have hpos : 0 < keyCount (List.indexOf keyCol A.cols) A.rows
          (rowKey (List.indexOf keyCol B.cols) rb) := Nat.pos_of_ne_zero hz
      rcases List.countP_pos.mp hpos with ⟨ra, hra, hkey⟩
      rw [beq_iff_eq] at hkey
      have hlen : List.indexOf keyCol A.cols < ra.length :=
        idKeyIdx_lt_row hA wfA hra
      have hrbmem : rb ∈ matchesOf (List.indexOf keyCol B.cols) B.rows
          (rowKey (List.indexOf keyCol A.cols) ra) :=
        mem_matchesOf.mpr ⟨hrb, hkey.symm⟩
      refine ⟨ra ++ rb.eraseIdx (List.indexOf keyCol B.cols), Or.inl ?_, ?_⟩
      · exact mem_mergeRowsLeft.mpr ⟨ra, hra, Or.inr ⟨rb, hrbmem, rfl⟩⟩
      · rw [rowKey_append_left hlen, hkey]
  · -- `_id` only in A: B-side cells are null
    intro r hr hz j hj1 hj2
    rcases hr with hr | hr
    · rcases mem_mergeRowsLeft.mp hr with ⟨ra, hra, hcase⟩
      have hlen : List.indexOf keyCol A.cols < ra.length :=
        idKeyIdx_lt_row hA wfA hra
      have hralen : ra.length = A.cols.length := wfA ra hra
      rcases hcase with ⟨-, hreq⟩ | ⟨rb, hrb, hreq⟩
      · subst hreq
        rw [List.get?_append_right (by omega)]
        have hlt : j - ra.length < B.cols.length - 1 := by omega
        simp [nullRow, List.get?_eq_getElem?, List.getElem?_replicate, hlt]
      · exfalso
        rcases mem_matchesOf.mp hrb with ⟨hrbB, hrbkey⟩
        rw [hreq, rowKey_append_left hlen, ← hrbkey] at hz
        have : 0 < keyCount (List.indexOf keyCol B.cols) B.rows
            (rowKey (List.indexOf keyCol B.cols) rb) :=
          List.countP_pos.mpr ⟨rb, hrbB, by simp⟩
        omega
    · exfalso
      rcases mem_mergeRowsRight.mp hr with ⟨rb, hrbB, -, hreq⟩
      rw [hreq, rowKey_rightRow hia] at hz
      have : 0 < keyCount (List.indexOf keyCol B.cols) B.rows
          (rowKey (List.indexOf keyCol B.cols) rb) :=
        List.countP_pos.mpr ⟨rb, hrbB, by simp⟩
      omega
  · -- `_id` only in B: A-side non-key cells are null
    intro r hr hz j hj hne
    rcases hr with hr | hr
    · exfalso
      rcases mem_mergeRowsLeft.mp hr with ⟨ra, hra, hcase⟩
      have hlen : List.indexOf keyCol A.cols < ra.length :=
        idKeyIdx_lt_row hA wfA hra
      have hkeyr : rowKey (List.indexOf keyCol A.cols) r
          = rowKey (List.indexOf keyCol A.cols) ra := by
        rcases hcase with ⟨-, hreq⟩ | ⟨rb, -, hreq⟩ <;>
          · subst hreq; exact rowKey_append_left hlen
      rw [hkeyr] at hz
      have : 0 < keyCount (List.indexOf keyCol A.cols) A.rows
          (rowKey (List.indexOf keyCol A.cols) ra) :=
        List.countP_pos.mpr ⟨ra, hra, by simp⟩
      omega
    · rcases mem_mergeRowsRight.mp hr with ⟨rb, -, -, hreq⟩
      subst hreq
      rw [List.get?_append (by simp [nullRow, hj])]
      rw [List.get?_set_ne _ _ (fun h => hne h.symm)]
      simp [nullRow, List.get?_eq_getElem?, List.getElem?_replicate, hj]

/-- Witness for C1 at the spec's example scenario. -/
theorem mergeOuter_no_silent_drops_and_null_fill_witness :
    (keyCol ∈ sampleA.cols ∧ keyCol ∈ sampleB.cols ∧ sampleA.WF ∧ sampleB.WF
      ∧ mergeOuter sampleA sampleB = Except.ok (mergeTables sampleA sampleB))
    ∧ ((∀ ra ∈ sampleA.rows, ∃ r ∈ (mergeTables sampleA sampleB).rows,
          rowKeyIn sampleA r = rowKeyIn sampleA ra)
      ∧ (∀ rb ∈ sampleB.rows, ∃ r ∈ (mergeTables sampleA sampleB).rows,
          rowKeyIn sampleA r = rowKeyIn sampleB rb)
      ∧ (∀ r ∈ (mergeTables sampleA sampleB).rows,
          idCount sampleB (rowKeyIn sampleA r) = 0 →
          ∀ j, sampleA.cols.length ≤ j →
            j < sampleA.cols.length + (sampleB.cols.length - 1) →
            r.get? j = some none)
      ∧ (∀ r ∈ (mergeTables sampleA sampleB).rows,
          idCount sampleA (rowKeyIn sampleA r) = 0 →
          ∀ j, j < sampleA.cols.length → j ≠ idKeyIdx sampleA →
            r.get? j = some none)) :=
  ⟨⟨by decide, by decide, by decide, by decide, rfl⟩,
    mergeOuter_no_silent_drops_and_null_fill sampleA sampleB
      (mergeTables sampleA sampleB)
      (by decide) (by decide) (by decide) (by decide) rfl⟩

/-- C2: the outer join's row count equals the full relational outer-join
cardinality: one row per (A-row, B-row) pair agreeing on `_id` plus one row
per unmatched row of either side; hence it is at least
`max (rows unique to A) (rows unique to B)`; and for an `_id` value `k`
occurring `m > 0` times in A and `n > 0` times in B, exactly `m * n` merged
rows carry `k`. -/
theorem mergeOuter_cardinality (A B M : Table)
    (hA : keyCol ∈ A.cols) (hB : keyCol ∈ B.cols) (wfA : A.WF) (wfB : B.WF)
    (hM : mergeOuter A B = Except.ok M) :
    M.rows.length = pairCount A B + unmatchedCount A B + unmatchedCount B A
    ∧ max (unmatchedCount A B) (unmatchedCount B A) ≤ M.rows.length
    ∧ ∀ k : Cell, 0 < idCount A k → 0 < idCount B k →
        keyCount (idKeyIdx A) M.rows k = idCount A k * idCount B k := by
  have hMeq := mergeOuter_ok_elim hM
  subst hMeq
  have hia : idKeyIdx A < A.cols.length := idKeyIdx_lt_cols hA
  have hwfa : ∀ ra ∈ A.rows, List.indexOf keyCol A.cols < ra.length :=
    fun ra hra => idKeyIdx_lt_row hA wfA hra
  have hlen :
      (mergeTables A B).rows.length
        = pairCount A B + unmatchedCount A B + unmatchedCount B A := by
    simp only [mergeTables, List.length_append, length_mergeRowsLeft,
      length_mergeRowsRight, pairCount, unmatchedCount, idCount, rowKeyIn,
      idKeyIdx]
    rw [sum_map_max_one]
  refine ⟨hlen, ?_, ?_⟩
  · rw [hlen]
    rw [max_le_iff]
    omega
  · intro k hkA hkB
    simp only [idCount, idKeyIdx] at hkA hkB ⊢
    simp only [mergeTables, keyCount, List.countP_append, idKeyIdx]
    rw [show List.countP (fun r => rowKey (List.indexOf keyCol A.cols) r == k)
          (mergeRowsLeft (List.indexOf keyCol A.cols) (List.indexOf keyCol B.cols)
            B.rows (B.cols.length - 1) A.rows)
        = keyCount (List.indexOf keyCol A.cols)
            (mergeRowsLeft (List.indexOf keyCol A.cols) (List.indexOf keyCol B.cols)
              B.rows (B.cols.length - 1) A.rows) k from rfl]
    rw [keyCount_mergeRowsLeft hwfa k]
    rw [show List.countP (fun r => rowKey (List.indexOf keyCol A.cols) r == k)
          (mergeRowsRight (List.indexOf keyCol A.cols) (List.indexOf keyCol B.cols)
            A.rows A.cols.length B.rows)
        = keyCount (List.indexOf keyCol A.cols)
            (mergeRowsRight (List.indexOf keyCol A.cols) (List.indexOf keyCol B.cols)
              A.rows A.cols.length B.rows) k from rfl]
    have hia' : List.indexOf keyCol A.cols < A.cols.length := by
      simpa [idKeyIdx] using hia
    rw [keyCount_mergeRowsRight_of_matched hia' hkA]
    have hfun :
        (fun ra => if rowKey (List.indexOf keyCol A.cols) ra = k
            then max 1 (keyCount (List.indexOf keyCol B.cols) B.rows
              (rowKey (List.indexOf keyCol A.cols) ra)) else 0)
          = (fun ra => if rowKey (List.indexOf keyCol A.cols) ra = k
            then keyCount (List.indexOf keyCol B.cols) B.rows k else 0) := by
      funext ra
      by_cases hk : rowKey (List.indexOf keyCol A.cols) ra = k
      · rw [if_pos hk, if_pos hk, hk, Nat.max_eq_right hkB]
      · rw [if_neg hk, if_neg hk]
    rw [hfun, sum_map_ite_key]
    rw [show List.countP (fun r => rowKey (List.indexOf keyCol A.cols) r == k) A.rows
        = keyCount (List.indexOf keyCol A.cols) A.rows k from rfl]
    rw [Nat.mul_comm]
    simp [keyCount]

/-- Witness for C2 at the spec's example scenario. -/
theorem mergeOuter_cardinality_witness :
    (keyCol ∈ sampleA.cols ∧ keyCol ∈ sampleB.cols ∧ sampleA.WF ∧ sampleB.WF
      ∧ mergeOuter sampleA sampleB = Except.ok (mergeTables sampleA sampleB))
    ∧ ((mergeTables sampleA sampleB).rows.length
          = pairCount sampleA sampleB + unmatchedCount sampleA sampleB
            + unmatchedCount sampleB sampleA
      ∧ max (unmatchedCount sampleA sampleB) (unmatchedCount sampleB sampleA)
          ≤ (mergeTables sampleA sampleB).rows.length
      ∧ ∀ k : Cell, 0 < idCount sampleA k → 0 < idCount sampleB k →
          keyCount (idKeyIdx sampleA) (mergeTables sampleA sampleB).rows k
            = idCount sampleA k * idCount sampleB k) :=
  ⟨⟨by decide, by decide, by decide, by decide, rfl⟩,
    mergeOuter_cardinality sampleA sampleB (mergeTables sampleA sampleB)
      (by decide) (by decide) (by decide) (by decide) rfl⟩

/-! ### Column-order lemmas for the merged table -/

lemma append_x_ne_keyCol (c : String) : c ++ "_x" ≠ keyCol := by
  intro h
  have hd : (c ++ "_x").data = keyCol.data := congrArg String.data h
  rw [String.data_append] at hd
  have hlast := congrArg List.getLast? hd
  rw [List.getLast?_append] at hlast
  simp [keyCol] at hlast

lemma append_y_ne_keyCol (c : String) : c ++ "_y" ≠ keyCol := by
  intro h
  have hd : (c ++ "_y").data = keyCol.data := congrArg String.data h
  rw [String.data_append] at hd
  have hlast := congrArg List.getLast? hd
  rw [List.getLast?_append] at hlast
  simp [keyCol] at hlast

lemma suffixLeft_eq_keyCol_iff (bCols : List String) (c : String) :
    ((if c ≠ keyCol ∧ c ∈ bCols then c ++ "_x" else c) = keyCol) ↔ c = keyCol := by
  constructor
  · intro h
    by_cases hcond : c ≠ keyCol ∧ c ∈ bCols
    · rw [if_pos hcond] at h
      exact absurd h (append_x_ne_keyCol c)
    · rwa [if_neg hcond] at h
  · intro h
    subst h
    rw [if_neg (by simp)]

lemma count_keyCol_map {f : String → String}
    (hf : ∀ c, (f c = keyCol) ↔ (c = keyCol)) (l : List String) :
    List.count keyCol (l.map f) = List.count keyCol l := by
  induction l with
  | nil => rfl
  | cons c rest ih =>
      simp only [List.map_cons, List.count_cons, ih]
      congr 1
      by_cases hc : c = keyCol
      · subst hc
        have hfk := (hf keyCol).mpr rfl
        simp [hfk]
      · have hne : f c ≠ keyCol := fun h => hc ((hf c).mp h)
        simp [hc, hne]

lemma count_keyCol_mergedRight (aCols bCols : List String) :
    List.count keyCol ((bCols.filter (fun c => decide (c ≠ keyCol))).map
      (fun c => if c ∈ aCols then c ++ "_y" else c)) = 0 := by
  rw [List.count_eq_zero]
  intro hmem
  rcases List.mem_map.mp hmem with ⟨c, hc, hceq⟩
  rcases List.mem_filter.mp hc with ⟨-, hcne⟩
  have hcne' : c ≠ keyCol := of_decide_eq_true hcne
  by_cases hm : c ∈ aCols
  · rw [if_pos hm] at hceq
    exact append_y_ne_keyCol c hceq
  · rw [if_neg hm] at hceq
    exact hcne' hceq

lemma count_keyCol_mergedCols (aCols bCols : List String) :
    List.count keyCol (mergedCols aCols bCols) = List.count keyCol aCols := by
  unfold mergedCols
  rw [List.count_append, count_keyCol_map (suffixLeft_eq_keyCol_iff bCols),
    count_keyCol_mergedRight]
  omega

lemma indexOf_keyCol_map {f : String → String}
    (hf : ∀ c, (f c = keyCol) ↔ (c = keyCol)) (l : List String)
    (hl : keyCol ∈ l) :
    List.indexOf keyCol (l.map f) = List.indexOf keyCol l := by
  induction l with
  | nil => cases hl
  | cons c rest ih =>
      simp only [List.map_cons]
      by_cases hc : c = keyCol
      · subst hc
        have hfk := (hf keyCol).mpr rfl
        rw [List.indexOf_cons, List.indexOf_cons, beq_iff_eq.mpr hfk, beq_iff_eq.mpr rfl]
        rfl
      · have hfc : f c ≠ keyCol := fun h => hc ((hf c).mp h)
        have hrest : keyCol ∈ rest := by
          rcases List.mem_cons.mp hl with h | h
          · exact absurd h.symm hc
          · exact h
        rw [List.indexOf_cons, List.indexOf_cons,
          beq_eq_false_iff_ne.mpr hfc, beq_eq_false_iff_ne.mpr hc]
        simp only [cond_false]
        rw [ih hrest]

lemma indexOf_keyCol_mergedCols (aCols bCols : List String) (hA : keyCol ∈ aCols) :
    List.indexOf keyCol (mergedCols aCols bCols) = List.indexOf keyCol aCols := by
  unfold mergedCols
  have hmem : keyCol ∈ aCols.map (fun c => if c ≠ keyCol ∧ c ∈ bCols then c ++ "_x" else c) :=
    List.mem_map.mpr ⟨keyCol, hA, (suffixLeft_eq_keyCol_iff bCols keyCol).mpr rfl⟩
  rw [List.indexOf_append_of_mem hmem]
  exact indexOf_keyCol_map (suffixLeft_eq_keyCol_iff bCols) aCols hA

lemma mergedCols_of_disjoint (aCols bCols : List String)
    (hdisj : ∀ c ∈ aCols, c ≠ keyCol → c ∉ bCols) :
    mergedCols aCols bCols = aCols ++ bCols.filter (fun c => decide (c ≠ keyCol)) := by
  unfold mergedCols
  congr 1
  · have : ∀ c ∈ aCols, (if c ≠ keyCol ∧ c ∈ bCols then c ++ "_x" else c) = c := by
      intro c hc
      by_cases hck : c = keyCol
      · rw [if_neg (by simp [hck])]
      · rw [if_neg (by intro hcond; exact hdisj c hc hck hcond.2)]
    rw [List.map_congr_left this]
    exact List.map_id' _
  · have : ∀ c ∈ bCols.filter (fun c => decide (c ≠ keyCol)),
        (if c ∈ aCols then c ++ "_y" else c) = c := by
      intro c hc
      rcases List.mem_filter.mp hc with ⟨hcB, hcne⟩
      have hcne' : c ≠ keyCol := of_decide_eq_true hcne
      rw [if_neg (fun hm => hdisj c hm hcne' hcB)]
    rw [List.map_congr_left this]
    exact List.map_id' _

/-- Counterexample to C9 as stated: when the two tables share a non-key
column name (here `q`), pandas renames the shared copies with suffixes
`_x`/`_y`, so the merged column list is not `A.cols` followed by B's
non-key columns verbatim. -/
theorem merged_column_order_cex :
    mergeOuter ⟨["_id", "q"], []⟩ ⟨["_id", "q"], []⟩
      = Except.ok (mergeTables ⟨["_id", "q"], []⟩ ⟨["_id", "q"], []⟩)
    ∧ (mergeTables ⟨["_id", "q"], []⟩ ⟨["_id", "q"], []⟩).cols = ["_id", "q_x", "q_y"]
    ∧ (mergeTables ⟨["_id", "q"], []⟩ ⟨["_id", "q"], []⟩).cols
        ≠ ["_id", "q"] ++ (["_id", "q"].filter (fun c => decide (c ≠ keyCol))) :=
  ⟨rfl, rfl, by decide⟩

/-- C9 (amended): the merged column list is A's columns in order followed by
B's non-key columns in order, with a non-key name occurring on both sides
suffixed `_x` (left copy) / `_y` (right copy); when the two tables share no
non-key column name the merged columns are exactly `A.cols` followed by B's
non-`_id` columns; the key column is never duplicated (it occurs exactly
once, at its position in A's column list). -/
theorem merged_column_order (A B M : Table)
    (hA : keyCol ∈ A.cols) (hB : keyCol ∈ B.cols)
    (hA1 : List.count keyCol A.cols = 1)
    (hM : mergeOuter A B = Except.ok M) :
    M.cols = mergedCols A.cols B.cols
    ∧ List.count keyCol M.cols = 1
    ∧ List.indexOf keyCol M.cols = List.indexOf keyCol A.cols
    ∧ ((∀ c ∈ A.cols, c ≠ keyCol → c ∉ B.cols) →
        M.cols = A.cols ++ B.cols.filter (fun c => decide (c ≠ keyCol))) := by
  have hMeq := mergeOuter_ok_elim hM
  subst hMeq
  refine ⟨rfl, ?_, ?_, ?_⟩
  · show List.count keyCol (mergedCols A.cols B.cols) = 1
    rw [count_keyCol_mergedCols, hA1]
  · exact indexOf_keyCol_mergedCols A.cols B.cols hA
  · intro hdisj
    exact mergedCols_of_disjoint A.cols B.cols hdisj

/-- Witness for C9 (amended) at the spec's example scenario. -/
theorem merged_column_order_witness :
    (keyCol ∈ sampleA.cols ∧ keyCol ∈ sampleB.cols
      ∧ List.count keyCol sampleA.cols = 1
      ∧ mergeOuter sampleA sampleB = Except.ok (mergeTables sampleA sampleB))
    ∧ ((mergeTables sampleA sampleB).cols = mergedCols sampleA.cols sampleB.cols
      ∧ List.count keyCol (mergeTables sampleA sampleB).cols = 1
      ∧ List.indexOf keyCol (mergeTables sampleA sampleB).cols
          = List.indexOf keyCol sampleA.cols
      ∧ ((∀ c ∈ sampleA.cols, c ≠ keyCol → c ∉ sampleB.cols) →
          (mergeTables sampleA sampleB).cols
            = sampleA.cols ++ sampleB.cols.filter (fun c => decide (c ≠ keyCol)))) :=
  ⟨⟨by decide, by decide, by decide, rfl⟩,
    merged_column_order sampleA sampleB (mergeTables sampleA sampleB)
      (by decide) (by decide) (by decide) rfl⟩

/-- On a successful run the effect trace is exactly: optional `mkdir`, the
CSV GET, the personality write, the authenticated GET, the assets write,
the merge, and the merged write, in this order. -/
lemma download_datasets_success_effects (purl aurl key : String) (w : World)
    (hok : (download_datasets purl aurl key w).error = none) :
    ∃ cp ca cm : String,
      (download_datasets purl aurl key w).effects
        = (if w.datasetsDirExists then [] else [Effect.mkdir "datasets"])
          ++ [Effect.csvGet purl,
              Effect.writeFile "datasets/personality.csv" cp,
              Effect.httpGet aurl (mkHeaders key) 30,
              Effect.writeFile "datasets/assets.csv" ca,
              Effect.mergeOp,
              Effect.writeFile "datasets/merged_dataset.csv" cm] := by
  match hcsv : w.csvResponse with
  | none => simp [download_datasets, hcsv] at hok
  | some text =>
    match hp : readCsv text with
    | Except.error e => simp [download_datasets, hcsv, hp] at hok
    | Except.ok dfP =>
      match hresp : w.assetsResponse with
      | HttpOutcome.timeout => simp [download_datasets, hcsv, hp, hresp] at hok
      | HttpOutcome.response s body =>
        match hrs : raiseForStatus s with
        | true => simp [download_datasets, hcsv, hp, hresp, hrs] at hok
        | false =>
          match body with
          | JsonBody.invalid => simp [download_datasets, hcsv, hp, hresp, hrs] at hok
          | JsonBody.records recs =>
            match hm : mergeOuter dfP (dataFrameOfRecords recs) with
            | Except.error e =>
                simp [download_datasets, hcsv, hp, hresp, hrs, hm] at hok
            | Except.ok dfM =>
                refine ⟨writeTable dfP, writeTable (dataFrameOfRecords recs),
                  writeTable dfM, ?_⟩
                simp [download_datasets, hcsv, hp, hresp, hrs, hm]

/-- Counterexample to C3 as stated: 304 is not a 2xx status, yet
`raise_for_status` raises only on 4xx/5xx, so the run completes without
any error and both `assets.csv` and `merged_dataset.csv` are written. -/
theorem assets_non2xx_fetch_error_cex :
    ¬(200 ≤ 304 ∧ 304 < 300)
    ∧ world304.assetsResponse
        = HttpOutcome.response 304 (JsonBody.records [[("_id", some "1")]])
    ∧ (download_datasets "p" "a" "k" world304).error = none
    ∧ writesTo "datasets/assets.csv"
        (download_datasets "p" "a" "k" world304).effects = true
    ∧ writesTo "datasets/merged_dataset.csv"
        (download_datasets "p" "a" "k" world304).effects = true :=
  ⟨by decide, rfl, rfl, rfl, rfl⟩

/-- C3 (amended): when the assets GET times out or returns a 4xx/5xx
status (exactly the statuses `raise_for_status` raises on), the run
terminates with a fetch error and writes neither `assets.csv` nor
`merged_dataset.csv`. -/
theorem assets_fetch_failure_no_files (purl aurl key text : String)
    (dfP : Table) (w : World)
    (hcsv : w.csvResponse = some text) (hp : readCsv text = Except.ok dfP)
    (hfail : w.assetsResponse = HttpOutcome.timeout
      ∨ ∃ s body, w.assetsResponse = HttpOutcome.response s body
          ∧ 400 ≤ s ∧ s < 600) :
    (download_datasets purl aurl key w).error = some PipeError.fetchError
    ∧ writesTo "datasets/assets.csv"
        (download_datasets purl aurl key w).effects = false
    ∧ writesTo "datasets/merged_dataset.csv"
        (download_datasets purl aurl key w).effects = false := by
  rcases hfail with ht | ⟨s, body, hresp, hs⟩
  · cases hde : w.datasetsDirExists <;>
      simp [download_datasets, hcsv, hp, ht, hde, writesTo]
  · have hrs : raiseForStatus s = true := by
      simp only [raiseForStatus, decide_eq_true_eq]
      omega
    cases hde : w.datasetsDirExists <;>
      cases body <;>
        simp [download_datasets, hcsv, hp, hresp, hrs, hde, writesTo]

/-- Witness for C3 (amended) at the timeout fixture world. -/
theorem assets_fetch_failure_no_files_witness :
    (worldTimeout.csvResponse = some "_id,trait\n1,X\n"
      ∧ readCsv "_id,trait\n1,X\n"
          = Except.ok ⟨["_id", "trait"], [[some "1", some "X"]]⟩
      ∧ worldTimeout.assetsResponse = HttpOutcome.timeout)
    ∧ ((download_datasets "p" "a" "k" worldTimeout).error
          = some PipeError.fetchError
      ∧ writesTo "datasets/assets.csv"
          (download_datasets "p" "a" "k" worldTimeout).effects = false
      ∧ writesTo "datasets/merged_dataset.csv"
          (download_datasets "p" "a" "k" worldTimeout).effects = false) :=
  ⟨⟨rfl, rfl, rfl⟩,
   assets_fetch_failure_no_files "p" "a" "k" "_id,trait\n1,X\n"
     ⟨["_id", "trait"], [[some "1", some "X"]]⟩ worldTimeout rfl rfl (Or.inl rfl)⟩

/-- Counterexample to C4 as stated: a fully successful run writes
`personality.csv` (and `assets.csv`) before the merge executes, so the
writes are not all after the merge. -/
theorem pipeline_write_order_cex :
    (download_datasets "p" "a" "k" worldOk).error = none
    ∧ writesOnlyAfterMerge (download_datasets "p" "a" "k" worldOk).effects = false
    ∧ writesTo "datasets/personality.csv"
        (download_datasets "p" "a" "k" worldOk).effects = true :=
  ⟨rfl, rfl, rfl⟩

/-- C4 (amended): the pipeline is the strict linear sequence mkdir-if-absent,
fetch personality, write `personality.csv`, fetch assets, write
`assets.csv`, merge, write `merged_dataset.csv` — each raw table is written
immediately after its own fetch and before the merge, and only
`merged_dataset.csv` is written after the merge; a failure of either fetch
(CSV fetch failure, assets timeout, or a 4xx/5xx assets status) halts the
run before the merge is attempted. -/
theorem pipeline_step_order (purl aurl key : String) (w : World) :
    ((download_datasets purl aurl key w).error = none →
      ∃ cp ca cm : String,
        (download_datasets purl aurl key w).effects
          = (if w.datasetsDirExists then [] else [Effect.mkdir "datasets"])
            ++ [Effect.csvGet purl,
                Effect.writeFile "datasets/personality.csv" cp,
                Effect.httpGet aurl (mkHeaders key) 30,
                Effect.writeFile "datasets/assets.csv" ca,
                Effect.mergeOp,
                Effect.writeFile "datasets/merged_dataset.csv" cm])
    ∧ ((w.csvResponse = none
        ∨ w.assetsResponse = HttpOutcome.timeout
        ∨ ∃ s body, w.assetsResponse = HttpOutcome.response s body
            ∧ 400 ≤ s ∧ s < 600) →
      Effect.mergeOp ∉ (download_datasets purl aurl key w).effects) := by
  constructor
  · exact download_datasets_success_effects purl aurl key w
  · intro hfail
    rcases hfail with hcsv | ht | ⟨s, body, hresp, hs⟩
    · cases hde : w.datasetsDirExists <;> simp [download_datasets, hcsv, hde]
    · match hcsv : w.csvResponse with
      | none => cases hde : w.datasetsDirExists <;> simp [download_datasets, hcsv, hde]
      | some text =>
        match hp : readCsv text with
        | Except.error e =>
            cases hde : w.datasetsDirExists <;> simp [download_datasets, hcsv, hp, hde]
        | Except.ok dfP =>
            cases hde : w.datasetsDirExists <;>
              simp [download_datasets, hcsv, hp, ht, hde]
    · have hrs : raiseForStatus s = true := by
        simp only [raiseForStatus, decide_eq_true_eq]
        omega
      match hcsv : w.csvResponse with
      | none => cases hde : w.datasetsDirExists <;> simp [download_datasets, hcsv, hde]
      | some text =>
        match hp : readCsv text with
        | Except.error e =>
            cases hde : w.datasetsDirExists <;> simp [download_datasets, hcsv, hp, hde]
        | Except.ok dfP =>
            cases hde : w.datasetsDirExists <;>
              cases body <;>
                simp [download_datasets, hcsv, hp, hresp, hrs, hde]

/-- Witness for C4 (amended) at the success and timeout fixture worlds. -/
theorem pipeline_step_order_witness :
    ((download_datasets "p" "a" "k" worldOk).error = none
      ∧ ∃ cp ca cm : String,
          (download_datasets "p" "a" "k" worldOk).effects
            = (if worldOk.datasetsDirExists then [] else [Effect.mkdir "datasets"])
              ++ [Effect.csvGet "p",
                  Effect.writeFile "datasets/personality.csv" cp,
                  Effect.httpGet "a" (mkHeaders "k") 30,
                  Effect.writeFile "datasets/assets.csv" ca,
                  Effect.mergeOp,
                  Effect.writeFile "datasets/merged_dataset.csv" cm])
    ∧ (worldTimeout.assetsResponse = HttpOutcome.timeout
      ∧ Effect.mergeOp ∉ (download_datasets "p" "a" "k" worldTimeout).effects) :=
  ⟨⟨rfl, (pipeline_step_order "p" "a" "k" worldOk).1 rfl⟩,
   ⟨rfl, (pipeline_step_order "p" "a" "k" worldTimeout).2 (Or.inr (Or.inl rfl))⟩⟩

/-- Counterexample to C5 as stated: with `_id` missing from the personality
table the run does raise a merge error, but `personality.csv` and
`assets.csv` have already been written by then. -/
theorem merge_key_error_before_write_cex :
    (download_datasets "p" "a" "k" worldNoKey).error = some PipeError.mergeError
    ∧ writesTo "datasets/personality.csv"
        (download_datasets "p" "a" "k" worldNoKey).effects = true
    ∧ writesTo "datasets/assets.csv"
        (download_datasets "p" "a" "k" worldNoKey).effects = true
    ∧ writesTo "datasets/merged_dataset.csv"
        (download_datasets "p" "a" "k" worldNoKey).effects = false :=
  ⟨rfl, rfl, rfl, rfl⟩

/-- C5 (amended): when `_id` is absent from one or both fetched tables the
run terminates with a merge error and `merged_dataset.csv` is never
written — but the two raw files have already been written by the time the
merge raises (the abort is before the merged write only). -/
theorem merge_key_error_aborts (purl aurl key text : String) (dfP : Table)
    (w : World) (s : Nat) (recs : List (List (String × Cell)))
    (hcsv : w.csvResponse = some text) (hp : readCsv text = Except.ok dfP)
    (hresp : w.assetsResponse = HttpOutcome.response s (JsonBody.records recs))
    (hs : ¬(400 ≤ s ∧ s < 600))
    (hkey : keyCol ∉ dfP.cols ∨ keyCol ∉ (dataFrameOfRecords recs).cols) :
    (download_datasets purl aurl key w).error = some PipeError.mergeError
    ∧ writesTo "datasets/merged_dataset.csv"
        (download_datasets purl aurl key w).effects = false
    ∧ writesTo "datasets/personality.csv"
        (download_datasets purl aurl key w).effects = true
    ∧ writesTo "datasets/assets.csv"
        (download_datasets purl aurl key w).effects = true := by
  have hrs : raiseForStatus s = false := by
    simp only [raiseForStatus, decide_eq_false_iff_not]
    exact hs
  have hm : mergeOuter dfP (dataFrameOfRecords recs)
      = Except.error PipeError.mergeError := by
    rw [mergeOuter, if_neg]
    tauto
  cases hde : w.datasetsDirExists <;>
    simp [download_datasets, hcsv, hp, hresp, hrs, hm, hde, writesTo]

/-- Witness for C5 (amended) at the missing-key fixture world. -/
theorem merge_key_error_aborts_witness :
    (worldNoKey.csvResponse = some "pid,trait\n1,X\n"
      ∧ readCsv "pid,trait\n1,X\n"
          = Except.ok ⟨["pid", "trait"], [[some "1", some "X"]]⟩
      ∧ worldNoKey.assetsResponse
          = HttpOutcome.response 200 (JsonBody.records [[("_id", some "1")]])
      ∧ ¬(400 ≤ 200 ∧ 200 < 600)
      ∧ keyCol ∉ (⟨["pid", "trait"], [[some "1", some "X"]]⟩ : Table).cols)
    ∧ ((download_datasets "p" "a" "k" worldNoKey).error = some PipeError.mergeError
      ∧ writesTo "datasets/merged_dataset.csv"
          (download_datasets "p" "a" "k" worldNoKey).effects = false
      ∧ writesTo "datasets/personality.csv"
          (download_datasets "p" "a" "k" worldNoKey).effects = true
      ∧ writesTo "datasets/assets.csv"
          (download_datasets "p" "a" "k" worldNoKey).effects = true) :=
  ⟨⟨rfl, rfl, rfl, by decide, by decide⟩,
   merge_key_error_aborts "p" "a" "k" "pid,trait\n1,X\n"
     ⟨["pid", "trait"], [[some "1", some "X"]]⟩ worldNoKey 200
     [[("_id", some "1")]] rfl rfl rfl (by decide) (Or.inl (by decide))⟩

/-- C6 is violated by the code (code bug per the spec's own security note):
with `SUPABASE_API_KEY` absent from the environment, `os.getenv` falls back
to the bearer token embedded in the source, and the script proceeds to
issue the authenticated request with that token instead of failing fast. -/
theorem api_key_fallback_used_when_env_absent :
    API_KEY none = HARDCODED_API_KEY
    ∧ (scriptRun none worldOk).error = none
    ∧ (scriptRun none worldOk).effects.filter isHttpGet
        = [Effect.httpGet ASSETS_ENDPOINT (mkHeaders HARDCODED_API_KEY) 30] :=
  ⟨rfl, rfl, rfl⟩

/-- C7: the assets fetch issues exactly one HTTP GET, carrying exactly the
headers `apikey: <key>`, `Authorization: Bearer <key>`,
`Accept: application/json` and the fixed 30-second timeout; a 2xx response
whose body is a JSON array of flat objects becomes a table with one row
per object, whose columns are the union of the observed keys in order of
first appearance, keys missing from an object null-filled. -/
theorem assets_request_shape_and_conversion (purl aurl key text : String)
    (dfP : Table) (w : World) (s : Nat) (recs : List (List (String × Cell)))
    (hcsv : w.csvResponse = some text) (hp : readCsv text = Except.ok dfP)
    (hresp : w.assetsResponse = HttpOutcome.response s (JsonBody.records recs))
    (h2xx : 200 ≤ s ∧ s < 300) :
    (download_datasets purl aurl key w).effects.filter isHttpGet
        = [Effect.httpGet aurl
            [("apikey", key), ("Authorization", "Bearer " ++ key),
             ("Accept", "application/json")] 30]
    ∧ (download_datasets purl aurl key w).assetsTable
        = some (dataFrameOfRecords recs)
    ∧ (dataFrameOfRecords recs).cols = unionKeys recs
    ∧ (dataFrameOfRecords recs).rows.length = recs.length
    ∧ (∀ i r, recs.get? i = some r →
        (dataFrameOfRecords recs).rows.get? i
          = some ((unionKeys recs).map (fun c => (r.lookup c).join))) := by
  have hrs : raiseForStatus s = false := by
    simp only [raiseForStatus, decide_eq_false_iff_not]
    omega
  refine ⟨?_, ?_, rfl, by simp [dataFrameOfRecords], ?_⟩
  · cases hm : mergeOuter dfP (dataFrameOfRecords recs) <;>
      cases hde : w.datasetsDirExists <;>
        simp [download_datasets, hcsv, hp, hresp, hrs, hm, hde, isHttpGet, mkHeaders]
  · cases hm : mergeOuter dfP (dataFrameOfRecords recs) <;>
      cases hde : w.datasetsDirExists <;>
        simp [download_datasets, hcsv, hp, hresp, hrs, hm, hde]
  · intro i r hir
    simp only [dataFrameOfRecords]
    rw [List.get?_map, hir]
    rfl

/-- Witness for C7 at the success fixture world. -/
theorem assets_request_shape_and_conversion_witness :
    (worldOk.csvResponse = some "_id,trait\n1,X\n"
      ∧ readCsv "_id,trait\n1,X\n"
          = Except.ok ⟨["_id", "trait"], [[some "1", some "X"]]⟩
      ∧ worldOk.assetsResponse
          = HttpOutcome.response 200
              (JsonBody.records [[("_id", some "1"), ("asset_value", some "100")]])
      ∧ (200 ≤ 200 ∧ 200 < 300))
    ∧ ((download_datasets "p" "a" "k" worldOk).effects.filter isHttpGet
          = [Effect.httpGet "a"
              [("apikey", "k"), ("Authorization", "Bearer " ++ "k"),
               ("Accept", "application/json")] 30]
      ∧ (download_datasets "p" "a" "k" worldOk).assetsTable
          = some (dataFrameOfRecords [[("_id", some "1"), ("asset_value", some "100")]])
      ∧ (dataFrameOfRecords [[("_id", some "1"), ("asset_value", some "100")]]).cols
          = unionKeys [[("_id", some "1"), ("asset_value", some "100")]]
      ∧ (dataFrameOfRecords [[("_id", some "1"), ("asset_value", some "100")]]).rows.length
          = [[("_id", some "1"), ("asset_value", some "100")]].length
      ∧ (∀ i r, [[("_id", some "1"), ("asset_value", some "100")]].get? i = some r →
          (dataFrameOfRecords [[("_id", some "1"), ("asset_value", some "100")]]).rows.get? i
            = some ((unionKeys [[("_id", some "1"), ("asset_value", some "100")]]).map
                (fun c => (r.lookup c).join)))) :=
  ⟨⟨rfl, rfl, rfl, by decide⟩,
   assets_request_shape_and_conversion "p" "a" "k" "_id,trait\n1,X\n"
     ⟨["_id", "trait"], [[some "1", some "X"]]⟩ worldOk 200
     [[("_id", some "1"), ("asset_value", some "100")]] rfl rfl rfl (by decide)⟩

/-- C10: on every successful run the filesystem effects are exactly the
creation of the `datasets` directory (only when absent) and the writes of
the three fixed relative paths, in order; the parameters
`personality_url`, `assets_url` and `supa_api_key` are arbitrary here, so
the output locations do not depend on them. -/
theorem pipeline_frame_effects (purl aurl key : String) (w : World)
    (hok : (download_datasets purl aurl key w).error = none) :
    writePaths (download_datasets purl aurl key w).effects
      = ["datasets/personality.csv", "datasets/assets.csv",
         "datasets/merged_dataset.csv"]
    ∧ mkdirPaths (download_datasets purl aurl key w).effects
      = (if w.datasetsDirExists then [] else ["datasets"]) := by
  obtain ⟨cp, ca, cm, hfx⟩ := download_datasets_success_effects purl aurl key w hok
  rw [hfx]
  cases hde : w.datasetsDirExists <;> simp [hde, writePaths, mkdirPaths]

/-- Witness for C10 at the success fixture world. -/
theorem pipeline_frame_effects_witness :
    (download_datasets "p" "a" "k" worldOk).error = none
    ∧ (writePaths (download_datasets "p" "a" "k" worldOk).effects
        = ["datasets/personality.csv", "datasets/assets.csv",
           "datasets/merged_dataset.csv"]
      ∧ mkdirPaths (download_datasets "p" "a" "k" worldOk).effects
        = (if worldOk.datasetsDirExists then [] else ["datasets"])) :=
  ⟨rfl, pipeline_frame_effects "p" "a" "k" worldOk rfl⟩

/-! ### CSV round-trip lemmas -/

lemma escapeField_of_plain {s : List Char} (h : needsQuoting s = false) :
    escapeField s = s := by
  rw [escapeField, h]
  rfl

lemma no_special_of_plain {s : List Char} (h : needsQuoting s = false) :
    ',' ∉ s ∧ '\"' ∉ s ∧ '\n' ∉ s ∧ '\r' ∉ s := by
  refine ⟨?_, ?_, ?_, ?_⟩ <;> intro hm <;>
  · have ht : needsQuoting s = true := by
      rw [needsQuoting]
      exact List.any_eq_true.mpr ⟨_, hm, by decide⟩
    rw [h] at ht
    cases ht

lemma unquoteField_of_no_quote {f : List Char} (h : '\"' ∉ f) :
    unquoteField f = f := by
  match f with
  | [] => rfl
  | c :: rest =>
      have hc : (c == '\"') = false := by
        rw [beq_eq_false_iff_ne]
        intro he
        exact h (he ▸ List.mem_cons_self c rest)
      rw [unquoteField, hc]
      rfl

lemma splitQuoted_ne_nil (sep : Char) (cs : List Char) (b : Bool) :
    splitQuoted sep cs b ≠ [] := by
  match cs with
  | [] => simp [splitQuoted]
  | c :: cs =>
      rw [splitQuoted]
      split
      · cases splitQuoted sep cs (!b) <;> simp [consHead]
      · split
        · simp
        · cases splitQuoted sep cs b <;> simp [consHead]

lemma consHead_eq_consAll (x : Char) (ls : List (List Char)) :
    consHead x ls = consAll [x] ls := by
  cases ls <;> rfl

lemma consAll_append (a b : List Char) (ls : List (List Char)) :
    consAll (a ++ b) ls = consAll a (consAll b ls) := by
  cases ls <;> simp [consAll]

lemma consAll_nil {ls : List (List Char)} (h : ls ≠ []) : consAll [] ls = ls := by
  match ls with
  | [] => exact absurd rfl h
  | f :: rest => simp [consAll]

lemma consAll_cons (x : Char) (c : List Char) (ls : List (List Char)) :
    consAll (x :: c) ls = consHead x (consAll c ls) := by
  cases ls <;> rfl

lemma splitQuoted_plain_chunk {sep : Char} {c : List Char} (hq : '\"' ∉ c)
    (hs : sep ∉ c) (rest : List Char) :
    splitQuoted sep (c ++ rest) false = consAll c (splitQuoted sep rest false) := by
  induction c with
  | nil => rw [List.nil_append, consAll_nil (splitQuoted_ne_nil sep rest false)]
  | cons x c' ih =>
      have hx1 : (x == '\"') = false := beq_eq_false_iff_ne.mpr
        (fun he => hq (he ▸ List.mem_cons_self x c'))
      have hx2 : (x == sep) = false := beq_eq_false_iff_ne.mpr
        (fun he => hs (he ▸ List.mem_cons_self x c'))
      have hq' : '\"' ∉ c' := fun hm => hq (List.mem_cons_of_mem x hm)
      have hs' : sep ∉ c' := fun hm => hs (List.mem_cons_of_mem x hm)
      rw [List.cons_append, splitQuoted, hx1, hx2]
      simp only [Bool.false_and, Bool.false_eq_true, if_false]
      rw [ih hq' hs', consAll_cons]

lemma splitQuoted_doubleQuotes (sep : Char) (s rest : List Char) :
    splitQuoted sep (doubleQuotes s ++ rest) true
      = consAll (doubleQuotes s) (splitQuoted sep rest true) := by
  induction s with
  | nil =>
      rw [show doubleQuotes [] = [] from rfl, List.nil_append,
        consAll_nil (splitQuoted_ne_nil sep rest true)]
  | cons x s' ih =>
      by_cases hx : x = '\"'
      · subst hx
        have hdq : doubleQuotes ('\"' :: s') = '\"' :: '\"' :: doubleQuotes s' := by
          rw [doubleQuotes]
          simp
        rw [hdq, List.cons_append, List.cons_append, splitQuoted,
          if_pos (by decide)]
        rw [splitQuoted, if_pos (by decide)]
        simp only [Bool.not_true, Bool.not_false]
        rw [ih, consAll_cons, consAll_cons]
      · have hx' : (x == '\"') = false := beq_eq_false_iff_ne.mpr hx
        have hdq : doubleQuotes (x :: s') = x :: doubleQuotes s' := by
          rw [doubleQuotes, if_neg (by simp [hx'])]
        rw [hdq, List.cons_append, splitQuoted, hx']
        simp only [Bool.false_eq_true, if_false, Bool.not_true, Bool.and_false]
        rw [ih, consAll_cons]

lemma splitQuoted_escapeField {sep : Char} (hsp : sep = ',' ∨ sep = '\n')
    (f rest : List Char) :
    splitQuoted sep (escapeField f ++ rest) false
      = consAll (escapeField f) (splitQuoted sep rest false) := by
  by_cases hnq : needsQuoting f = true
  · rw [escapeField, if_pos hnq]
    rw [List.cons_append, splitQuoted, if_pos (by decide)]
    simp only [Bool.not_false]
    rw [List.append_assoc]
    rw [show ((['\"'] : List Char) ++ rest) = '\"' :: rest from rfl]
    rw [splitQuoted_doubleQuotes]
    rw [splitQuoted, if_pos (by decide)]
    simp only [Bool.not_true]
    simp only [consHead_eq_consAll]
    rw [show ('\"' :: (doubleQuotes f ++ ['\"']))
        = ['\"'] ++ (doubleQuotes f ++ ['\"']) from rfl]
    rw [consAll_append, consAll_append]
  · have hnq' : needsQuoting f = false := by simpa using hnq
    rw [escapeField_of_plain hnq']
    have hs := no_special_of_plain hnq'
    refine splitQuoted_plain_chunk hs.2.1 ?_ rest
    rcases hsp with h | h
    · rw [h]
      exact hs.1
    · rw [h]
      exact hs.2.2.1

lemma splitQuoted_line_chunk {fs : List (List Char)}
    (hfs : ∀ f ∈ fs, ∃ g, f = escapeField g) (rest : List Char) :
    splitQuoted '\n' (joinFields fs ++ rest) false
      = consAll (joinFields fs) (splitQuoted '\n' rest false) := by
  induction fs with
  | nil =>
      rw [show joinFields [] = [] from rfl, List.nil_append,
        consAll_nil (splitQuoted_ne_nil '\n' rest false)]
  | cons f fs' ih =>
      obtain ⟨g, hg⟩ := hfs f (List.mem_cons_self f fs')
      match fs' with
      | [] =>
          rw [joinFields]
          simp only [List.isEmpty_nil, if_true, List.append_nil]
          rw [hg]
          exact splitQuoted_escapeField (Or.inr rfl) g rest
      | f' :: fs'' =>
          rw [joinFields]
          simp only [List.isEmpty_cons, Bool.false_eq_true, if_false]
          rw [List.append_assoc, hg, splitQuoted_escapeField (Or.inr rfl) g _]
          rw [List.cons_append, splitQuoted, if_neg (by decide),
            if_neg (by decide)]
          rw [ih (fun f hf => hfs f (List.mem_cons_of_mem _ hf))]
          simp only [consHead_eq_consAll]
          rw [show (escapeField g ++ ',' :: joinFields (f' :: fs''))
              = escapeField g ++ ([','] ++ joinFields (f' :: fs'')) from rfl]
          rw [consAll_append, consAll_append]

lemma splitQuoted_joinLines {ls : List (List Char)}
    (hls : ∀ l ∈ ls, ∃ fs, (∀ f ∈ fs, ∃ g, f = escapeField g) ∧ l = joinFields fs) :
    splitQuoted '\n' (joinLines ls) false = ls ++ [[]] := by
  induction ls with
  | nil => rfl
  | cons l ls' ih =>
      obtain ⟨fs, hfs, hl⟩ := hls l (List.mem_cons_self l ls')
      rw [joinLines, hl, splitQuoted_line_chunk hfs]
      rw [splitQuoted, if_neg (by decide), if_pos (by decide)]
      rw [ih (fun l' hl' => hls l' (List.mem_cons_of_mem l hl'))]
      simp [consAll]

lemma splitQuoted_joinFields_fields {fs : List (List Char)} (hne : fs ≠ [])
    (hfs : ∀ f ∈ fs, ∃ g, f = escapeField g) :
    splitQuoted ',' (joinFields fs) false = fs := by
  induction fs with
  | nil => exact absurd rfl hne
  | cons f fs' ih =>
      obtain ⟨g, hg⟩ := hfs f (List.mem_cons_self f fs')
      match fs' with
      | [] =>
          rw [joinFields]
          simp only [List.isEmpty_nil, if_true]
          rw [hg, splitQuoted_escapeField (Or.inl rfl) g []]
          simp [consAll, splitQuoted]
      | f' :: fs'' =>
          rw [joinFields]
          simp only [List.isEmpty_cons, Bool.false_eq_true, if_false]
          rw [hg, splitQuoted_escapeField (Or.inl rfl) g _]
          rw [splitQuoted, if_neg (by decide), if_pos (by decide)]
          rw [ih (by intro hh; exact List.noConfusion hh)
            (fun f hf => hfs f (List.mem_cons_of_mem _ hf))]
          simp [consAll]

lemma doubleQuotes_ne_nil {s : List Char} (h : s ≠ []) : doubleQuotes s ≠ [] := by
  match s with
  | [] => exact absurd rfl h
  | x :: s' =>
      rw [doubleQuotes]
      split
      · simp
      · simp

lemma undoubleQuotes_doubleQuotes (s : List Char) :
    undoubleQuotes (doubleQuotes s) = s := by
  induction s with
  | nil => rfl
  | cons x s' ih =>
      by_cases hx : x = '\"'
      · subst hx
        have hdq : doubleQuotes ('\"' :: s') = '\"' :: '\"' :: doubleQuotes s' := by
          rw [doubleQuotes]
          simp
        rw [hdq, undoubleQuotes, if_pos (by decide), ih]
      · have hx' : (x == '\"') = false := beq_eq_false_iff_ne.mpr hx
        have hdq : doubleQuotes (x :: s') = x :: doubleQuotes s' := by
          rw [doubleQuotes, if_neg (by simp [hx'])]
        rw [hdq]
        match hdq' : doubleQuotes s' with
        | [] =>
            have hs' : s' = [] := by
              by_contra hne
              exact doubleQuotes_ne_nil hne hdq'
            subst hs'
            rfl
        | y :: rest =>
            rw [undoubleQuotes, if_neg (by simp [hx'])]
            rw [← hdq', ih]

lemma unquoteField_escapeField (f : List Char) :
    unquoteField (escapeField f) = f := by
  by_cases hnq : needsQuoting f = true
  · rw [escapeField, if_pos hnq]
    rw [unquoteField, if_pos (by decide)]
    rw [List.dropLast_concat]
    exact undoubleQuotes_doubleQuotes f
  · have hnq' : needsQuoting f = false := by simpa using hnq
    rw [escapeField_of_plain hnq']
    exact unquoteField_of_no_quote (no_special_of_plain hnq').2.1

/-- Counterexample to C8 as stated: a single-column table with one missing
value serializes to a blank data line (`"a\n\n"`), which `read_csv`
(default `skip_blank_lines=True`) drops on re-reading, so the row count is
not preserved. -/
theorem csv_round_trip_cex :
    writeTable ⟨["a"], [[none]]⟩ = "a\n\n"
    ∧ readCsv (writeTable ⟨["a"], [[none]]⟩) = Except.ok ⟨["a"], []⟩
    ∧ (⟨["a"], [[none]]⟩ : Table).rows.length = 1
    ∧ (⟨["a"], []⟩ : Table).rows.length ≠ (⟨["a"], [[none]]⟩ : Table).rows.length :=
  ⟨rfl, rfl, rfl, by decide⟩

/-- C8 (amended): writing a table with `to_csv(index=False)` and re-reading
the text yields a table with identical column order (hence column count)
and identical row count — column names and cells may freely contain
commas, quotes and line breaks, which QUOTE_MINIMAL quoting round-trips —
provided no line of the written file is blank: the header line is blank
only for a table with no columns or a single empty-named column, and a
data row's line is blank exactly when the table has a single column whose
cell in that row is missing or the empty string (`read_csv` skips blank
lines, which is the counterexample). -/
theorem csv_write_read_round_trip (t : Table)
    (hhdr : headerLineOf t.cols ≠ [])
    (hlines : ∀ r ∈ t.rows, rowLineOf r ≠ []) :
    ∃ t' : Table, readCsv (writeTable t) = Except.ok t'
      ∧ t'.cols = t.cols ∧ t'.rows.length = t.rows.length := by
  have hcols : t.cols ≠ [] := by
    intro h
    exact hhdr (by rw [h]; rfl)
  have hHfs : ∀ f ∈ t.cols.map (fun c => escapeField c.data),
      ∃ g, f = escapeField g := by
    intro f hf
    rcases List.mem_map.mp hf with ⟨c, -, hfc⟩
    exact ⟨c.data, hfc.symm⟩
  have hRfs : ∀ r ∈ t.rows, ∀ f ∈ r.map cellField, ∃ g, f = escapeField g := by
    intro r hr f hf
    rcases List.mem_map.mp hf with ⟨x, -, hfx⟩
    match x with
    | none => exact ⟨[], hfx.symm⟩
    | some s => exact ⟨s.data, hfx.symm⟩
  have hsplit : splitRecordsAux (writeTable t).data false
      = (headerLineOf t.cols :: t.rows.map rowLineOf) ++ [[]] := by
    rw [show (writeTable t).data
        = joinLines (headerLineOf t.cols :: t.rows.map rowLineOf) from rfl]
    show splitQuoted '\n' _ false = _
    apply splitQuoted_joinLines
    intro l hl
    rcases List.mem_cons.mp hl with hl | hl
    · exact ⟨t.cols.map (fun c => escapeField c.data), hHfs, by rw [hl]; rfl⟩
    · rcases List.mem_map.mp hl with ⟨r, hr, hlr⟩
      exact ⟨r.map cellField, hRfs r hr, by rw [← hlr]; rfl⟩
  have hfilter : ((headerLineOf t.cols :: t.rows.map rowLineOf) ++ [[]]).filter
      (fun l => decide (l ≠ [])) = headerLineOf t.cols :: t.rows.map rowLineOf := by
    rw [List.filter_append]
    rw [List.filter_eq_self.mpr ?_]
    · simp
    · intro l hl
      rcases List.mem_cons.mp hl with hl | hl
      · exact decide_eq_true (hl ▸ hhdr)
      · rcases List.mem_map.mp hl with ⟨r, hr, hlr⟩
        exact decide_eq_true (hlr ▸ hlines r hr)
  refine ⟨⟨(splitFieldsAux (headerLineOf t.cols) false).map
        (fun f => (⟨unquoteField f⟩ : String)),
      (t.rows.map rowLineOf).map
        (fun line => (splitFieldsAux line false).map decodeCell)⟩, ?_, ?_, ?_⟩
  · unfold readCsv
    rw [hsplit, hfilter]
  · show (splitFieldsAux (headerLineOf t.cols) false).map
        (fun f => (⟨unquoteField f⟩ : String)) = t.cols
    rw [show splitFieldsAux (headerLineOf t.cols) false
        = splitQuoted ',' (joinFields (t.cols.map (fun c => escapeField c.data)))
            false from rfl]
    rw [splitQuoted_joinFields_fields
      (fun hh => hcols (List.map_eq_nil.mp hh)) hHfs]
    rw [List.map_map]
    have hpt : ∀ c ∈ t.cols,
        ((fun f => (⟨unquoteField f⟩ : String)) ∘ (fun c => escapeField c.data)) c
          = c := by
      intro c hc
      show (⟨unquoteField (escapeField c.data)⟩ : String) = c
      rw [unquoteField_escapeField]
    exact (List.map_congr_left hpt).trans (List.map_id' t.cols)
  · show ((t.rows.map rowLineOf).map
        (fun line => (splitFieldsAux line false).map decodeCell)).length
      = t.rows.length
    simp

/-- Witness for C8 (amended) at a fixture table whose names and cells
contain commas, quotes, a line break, an empty cell and a missing cell. -/
theorem csv_write_read_round_trip_witness :
    (headerLineOf sampleQuoted.cols ≠ []
      ∧ ∀ r ∈ sampleQuoted.rows, rowLineOf r ≠ [])
    ∧ (∃ t' : Table, readCsv (writeTable sampleQuoted) = Except.ok t'
        ∧ t'.cols = sampleQuoted.cols
        ∧ t'.rows.length = sampleQuoted.rows.length) :=
  ⟨⟨by decide, by decide⟩,
   csv_write_read_round_trip sampleQuoted (by decide) (by decide)⟩
